import Mathlib

/-!
# Verification of the liquid-mirror Arch repository generator

Shallow embedding of `src/pages/db/archlinux/generator.js` (the
pacman-style repository database generator) and proofs about it.

Conventions:
* JS byte buffers (`Uint8Array`) are embedded as `List Nat`, each element a
  byte value (`< 256` where it matters).
* JS strings are embedded as `List Char`.
* Machine integers are `Nat` (all quantities in the source are non-negative).
* `Date.now()` inside the header builder is passed in explicitly as `mtime`.
-/

namespace LiquidMirror

/-- Byte buffers (`Uint8Array` contents). -/
abbrev Bytes := List Nat

/-- JS strings. -/
abbrev Str := List Char

/-! ## Octal rendering (JS `n.toString(8)`), embedded with explicit fuel

`Nat.toString`-style rendering, most-significant digit first, as ASCII
byte values.  The fuel argument makes the recursion structural; `fuel = n`
is always enough since `n / 8 < n` for `n ≥ 1`. -/

/-- Auxiliary octal renderer: digits of `n` (msb first) as ASCII bytes,
empty for `n = 0`. -/
def encOctAux : Nat → Nat → Bytes
  | 0, _ => []
  | fuel + 1, n => if n = 0 then [] else encOctAux fuel (n / 8) ++ [48 + n % 8]

/-- JS `n.toString(8)` as ASCII bytes: octal digits, msb first, `"0"` for zero. -/
def encOct (n : Nat) : Bytes :=
  if n = 0 then [48] else encOctAux n n

/-- JS `String.prototype.padStart(w, '0')` on a digit string. -/
def padZeros (w : Nat) (l : Bytes) : Bytes :=
  List.replicate (w - l.length) 48 ++ l

/-- An octal header number field: `n.toString(8).padStart(w,'0') + '\0'`,
truncated to the field width `w + 1` (the JS `write` slices its data). -/
def numField (n w : Nat) : Bytes :=
  (padZeros w (encOct n) ++ [0]).take (w + 1)

/-- Octal parsing used by a conformant tar reader: take the leading run of
bytes up to a NUL or space terminator and read them as octal ASCII digits. -/
def parseOct (l : Bytes) : Nat :=
  (l.takeWhile (fun b => b != 0 && b != 32)).foldl (fun a b => a * 8 + (b - 48)) 0

/-! ## The tar header builder (`#makeTarHeader`)

The JS routine zero-initialises a 512-byte buffer and writes disjoint
fields at fixed offsets in increasing order, so it is embedded as the
concatenation of the field blocks (each block includes any trailing
zero-initialised bytes of its 8/12-byte slot that the 7-byte literals
leave untouched).  The checksum field is first written as eight ASCII
spaces, the byte sum of the whole 512-byte buffer is taken, and the field
is then overwritten with the rendered sum. -/

/-- Name field, offset 0, 100 bytes: `name.padEnd(100, '\0')` sliced to
100 bytes (silent truncation of over-long names). -/
def nameField (name : Bytes) : Bytes :=
  (name ++ List.replicate (100 - name.length) 0).take 100

/-- Mode field, offset 100, 8 bytes: `'000644\0'` (7 bytes written, final
byte left zero-initialised). -/
def modeField : Bytes := [48, 48, 48, 54, 52, 52, 0, 0]

/-- Uid field, offset 108, 8 bytes: `'000000\0'` plus a zero-initialised byte. -/
def uidField : Bytes := [48, 48, 48, 48, 48, 48, 0, 0]

/-- Gid field, offset 116, 8 bytes: `'000000\0'` plus a zero-initialised byte. -/
def gidField : Bytes := [48, 48, 48, 48, 48, 48, 0, 0]

/-- Checksum field contents: `sum.toString(8).padStart(6,'0') + '\0 '`,
sliced to the 8-byte field width. -/
def checksumField (s : Nat) : Bytes :=
  (padZeros 6 (encOct s) ++ [0, 32]).take 8

/-- Bytes 0–147 of the header: name, mode, uid, gid, size, mtime. -/
def headerA (name : Bytes) (size mtime : Nat) : Bytes :=
  nameField name ++ modeField ++ uidField ++ gidField
    ++ numField size 11 ++ numField mtime 11

/-- Bytes 156–511 of the header: typeflag, zero gap, `"ustar\0"` magic,
`"00"` version, zero tail. -/
def headerB (type : Nat) : Bytes :=
  type :: (List.replicate 100 0 ++ [117, 115, 116, 97, 114, 0] ++ [48, 48]
    ++ List.replicate 247 0)

/-- The header as it stands when the byte sum is taken: checksum field
holding eight ASCII spaces (0x20). -/
def tarHeaderPre (name : Bytes) (size mtime type : Nat) : Bytes :=
  headerA name size mtime ++ List.replicate 8 32 ++ headerB type

/-- The routine `#makeTarHeader(name, size, {type})` with `Date.now()` passed as
`mtime`: sum the space-filled header, then overwrite offset 148 with the
rendered checksum. -/
def makeTarHeader (name : Bytes) (size mtime type : Nat) : Bytes :=
  let pre := tarHeaderPre name size mtime type
  pre.take 148 ++ checksumField pre.sum ++ pre.drop 156

/-! ## The archive builder (`#buildTarArchive`) and a conformant reader

`#buildTarArchive` pushes, per file, the 512-byte header, the raw content,
and zero padding to the next 512-byte boundary, then two empty 512-byte
blocks, and concatenates all blocks.  Entries in this repository carry no
`type` option, so `file.type || '0'` is always the byte `'0'` = 48. -/

/-- One named blob destined for the container. -/
structure TarEntry where
  name : Bytes
  content : Bytes
deriving DecidableEq

/-- Zero padding after a content of `n` bytes: `(512 - n % 512) % 512`. -/
def padLen (n : Nat) : Nat := (512 - n % 512) % 512

/-- The blocks one entry contributes: header, content, padding. -/
def buildEntry (mtime : Nat) (e : TarEntry) : Bytes :=
  makeTarHeader e.name e.content.length mtime 48
    ++ e.content ++ List.replicate (padLen e.content.length) 0

/-- The builder `#buildTarArchive(files)`: all entry blocks, then 1024 zero bytes. -/
def buildTarArchive (mtime : Nat) (files : List TarEntry) : Bytes :=
  (files.map (buildEntry mtime)).flatten ++ List.replicate 1024 0

/-- A conformant reader of the fixed archival format: stop at a zero
block, else read the NUL-terminated name from bytes 0–99, the octal size
from bytes 124–135, take that many content bytes after the header and
skip the padding.  Fuel makes the recursion structural; each step consumes
at least 512 bytes, so `data.length + 1` is always enough. -/
def readTarAux : Nat → Bytes → Option (List TarEntry)
  | 0, _ => none
  | fuel + 1, data =>
    if data.length < 512 then none
    else
      let header := data.take 512
      if header.all (fun b => b == 0) then some []
      else
        let name := (header.take 100).takeWhile (fun b => b != 0)
        let size := parseOct ((header.drop 124).take 12)
        let rest := data.drop 512
        if rest.length < size then none
        else
          match readTarAux fuel (rest.drop (size + padLen size)) with
          | some es => some (⟨name, rest.take size⟩ :: es)
          | none => none

/-- Unpack a produced container. -/
def readTar (data : Bytes) : Option (List TarEntry) :=
  readTarAux (data.length + 1) data

/-! ## The release classifier (`REPO_CONFIG.packagePatterns`,
`#validatePackage`, `#parsePackageInfo`)

The two anchored patterns are

* `^linux-upstream-(\d+\.\d+\.\d+_liquid-\d+)-(x86_64)\.pkg\.tar\.zst$`
  (2 capture groups), and
* `^linux-upstream-(rt|zen|lts)-(\d+\.\d+\.\d+_liquid-\d+)-(x86_64)\.pkg\.tar\.zst$`
  (3 capture groups).

Every `\d+` is followed by a non-digit literal (`.`, `_` or `-`) and the
alternation branches start with distinct letters, so greedy deterministic
parsing coincides with the regex semantics and the embedding below is an
exact matcher. -/

/-- A GitHub release asset (`{name, size, browser_download_url}`). -/
structure Asset where
  name : Str
  size : Nat
  browser_download_url : Str
deriving DecidableEq

/-- A GitHub release; `published_at` is `new Date(...)` as epoch ms. -/
structure Release where
  draft : Bool
  published_at : Nat
  tag_name : Str
  assets : List Asset
deriving DecidableEq

/-- The record `#parsePackageInfo` builds.  `arch` is an `Option` because
the JS destructuring `[_, variant, version, arch] = match` leaves `arch`
`undefined` when the matched pattern has only two capture groups. -/
structure Pkg where
  name : Str
  variant : Str
  version : Str
  arch : Option Str
  filename : Str
  size : Nat
  downloadUrl : Str
  publishedAt : Nat
  releaseTag : Str
deriving DecidableEq

/-- Consume an exact literal. -/
def expectLit (lit s : Str) : Option Str :=
  if s.take lit.length = lit then some (s.drop lit.length) else none

/-- Consume a non-empty greedy digit run (`\d+`). -/
def digits1 (s : Str) : Option (Str × Str) :=
  let ds := s.takeWhile Char.isDigit
  if ds.isEmpty then none else some (ds, s.drop ds.length)

/-- Consume `\d+\.\d+\.\d+_liquid-\d+` and return the matched token. -/
def versionTok (s : Str) : Option (Str × Str) := do
  let (d1, s) ← digits1 s
  let s ← expectLit ".".data s
  let (d2, s) ← digits1 s
  let s ← expectLit ".".data s
  let (d3, s) ← digits1 s
  let s ← expectLit "_liquid-".data s
  let (d4, s) ← digits1 s
  return (d1 ++ ".".data ++ d2 ++ ".".data ++ d3 ++ "_liquid-".data ++ d4, s)

/-- Match the first (variant-less) pattern; on success return the two
capture groups (version token, architecture token). -/
def matchPat1 (s : Str) : Option (Str × Str) := do
  let s ← expectLit "linux-upstream-".data s
  let (v, s) ← versionTok s
  let s ← expectLit "-".data s
  let s ← expectLit "x86_64".data s
  let s ← expectLit ".pkg.tar.zst".data s
  if s.isEmpty then return (v, "x86_64".data) else none

/-- Match the `(rt|zen|lts)` alternation (branches tried in order). -/
def variantAlt (s : Str) : Option (Str × Str) :=
  match expectLit "rt".data s with
  | some s1 => some ("rt".data, s1)
  | none =>
    match expectLit "zen".data s with
    | some s1 => some ("zen".data, s1)
    | none =>
      match expectLit "lts".data s with
      | some s1 => some ("lts".data, s1)
      | none => none

/-- Match the second (variant) pattern; on success return the three
capture groups (variant, version token, architecture token). -/
def matchPat2 (s : Str) : Option (Str × Str × Str) := do
  let s ← expectLit "linux-upstream-".data s
  let (var, s) ← variantAlt s
  let s ← expectLit "-".data s
  let (v, s) ← versionTok s
  let s ← expectLit "-".data s
  let s ← expectLit "x86_64".data s
  let s ← expectLit ".pkg.tar.zst".data s
  if s.isEmpty then return (var, v, "x86_64".data) else none

/-- JS `str.endsWith(suffix)`. -/
def strEndsWith (s suf : Str) : Bool :=
  decide (s.reverse.take suf.length = suf.reverse)

/-- The guard `#validatePackage`: some pattern matches, and the name ends with
`"<arch>.pkg.tar.zst"` for the single configured architecture. -/
def validatePackage (a : Asset) : Bool :=
  ((matchPat1 a.name).isSome && strEndsWith a.name "x86_64.pkg.tar.zst".data)
  || ((matchPat2 a.name).isSome && strEndsWith a.name "x86_64.pkg.tar.zst".data)

/-- The record built from the destructured capture list
`[_, variant, version, arch]`: `variant` and `version` are `match[1]` and
`match[2]` (strings for both patterns), `arch` is `match[3]` (`undefined`,
i.e. `none`, for the 2-group pattern).  `if variant.isEmpty` embeds the JS
string truthiness test `variant ? ... : ...`. -/
def mkPkgRecord (variant version : Str) (arch : Option Str)
    (asset : Asset) (release : Release) : Pkg :=
  { name := if variant.isEmpty then "linux-upstream".data
      else "linux-upstream-".data ++ variant
    variant := if variant.isEmpty then "default".data else variant
    version := version
    arch := arch
    filename := asset.name
    size := asset.size
    downloadUrl := asset.browser_download_url
    publishedAt := release.published_at
    releaseTag := release.tag_name }

/-- The parser `#parsePackageInfo`: try the patterns in configuration order and
destructure the first match. -/
def parsePackageInfo (asset : Asset) (release : Release) : Option Pkg :=
  match matchPat1 asset.name with
  | some (g1, g2) => some (mkPkgRecord g1 g2 none asset release)
  | none =>
    match matchPat2 asset.name with
    | some (g1, g2, g3) => some (mkPkgRecord g1 g2 (some g3) asset release)
    | none => none

/-! ## Collecting, sorting and truncating (`generateDatabase`) -/

/-- The package-collection loop of `generateDatabase`: skip draft
releases, keep assets passing `#validatePackage` whose
`#parsePackageInfo` succeeds, in enumeration order. -/
def collectPackages (releases : List Release) : List Pkg :=
  releases.flatMap (fun r =>
    if r.draft then []
    else r.assets.flatMap (fun a =>
      if validatePackage a then
        match parsePackageInfo a r with
        | some pkg => [pkg]
        | none => []
      else []))

/-- The comparator `(a, b) => b.publishedAt - a.publishedAt` as the
"may come first" relation of a stable sort: `a` may precede `b` iff the
comparator is `≤ 0`, i.e. `b.publishedAt ≤ a.publishedAt`. -/
def pkgLe (a b : Pkg) : Bool := b.publishedAt ≤ a.publishedAt

/-- The constant `REPO_CONFIG.maxPackages`. -/
def maxPackages : Nat := 3

/-- The call `packages.sort((a, b) => b.publishedAt - a.publishedAt)` followed by
`.slice(0, maxPackages)`.  JS `Array.prototype.sort` is a stable sort
consistent with the comparator, hence embeds as `mergeSort`. -/
def latestPackages (releases : List Release) : List Pkg :=
  ((collectPackages releases).mergeSort pkgLe).take maxPackages

/-- A January 2024 release with one matching (zen-variant) asset. -/
def relJan : Release :=
  ⟨false, 1704067200000, "v6.6.1-liquid-1".data,
    [⟨"linux-upstream-zen-6.6.1_liquid-1-x86_64.pkg.tar.zst".data, 10, "a".data⟩]⟩

/-- A February 2024 release with one matching (zen-variant) asset. -/
def relFeb : Release :=
  ⟨false, 1706745600000, "v6.6.1-liquid-2".data,
    [⟨"linux-upstream-zen-6.6.1_liquid-2-x86_64.pkg.tar.zst".data, 11, "b".data⟩]⟩

/-- The record classified from `relJan`'s asset. -/
def pkgJan : Pkg :=
  ⟨"linux-upstream-zen".data, "zen".data, "6.6.1_liquid-1".data,
    some "x86_64".data,
    "linux-upstream-zen-6.6.1_liquid-1-x86_64.pkg.tar.zst".data, 10, "a".data,
    1704067200000, "v6.6.1-liquid-1".data⟩

/-- The record classified from `relFeb`'s asset. -/
def pkgFeb : Pkg :=
  ⟨"linux-upstream-zen".data, "zen".data, "6.6.1_liquid-2".data,
    some "x86_64".data,
    "linux-upstream-zen-6.6.1_liquid-2-x86_64.pkg.tar.zst".data, 11, "b".data,
    1706745600000, "v6.6.1-liquid-2".data⟩

/-! ## The metadata formatter (`#generateDescContent`, `#generateFilesContent`) -/

/-- Decimal rendering of a `Nat` (JS number-to-string coercion in the
template array), fuel-structural like `encOctAux`. -/
def encDecAux : Nat → Nat → Str
  | 0, _ => []
  | fuel + 1, n => if n = 0 then [] else encDecAux fuel (n / 10) ++ [Char.ofNat (48 + n % 10)]

/-- JS `String(n)` for a non-negative number. -/
def encDec (n : Nat) : Str := if n = 0 then "0".data else encDecAux n n

/-- JS string coercion of a possibly-`undefined` value (template
interpolation / `join`): `undefined` renders as `"undefined"`. -/
def optStr : Option Str → Str
  | some s => s
  | none => "undefined".data

/-- JS `Array.prototype.join('\n')`. -/
def joinNl : List Str → Str
  | [] => []
  | [x] => x
  | x :: y :: xs => x ++ '\n' :: joinNl (y :: xs)

/-- The `%PROVIDES%` value: `provides.join('\n') || ''` where `provides`
is `[]` for the default variant and `` [`linux-upstream=${pkg.version}`] ``
otherwise (note the fixed literal `linux-upstream`, not `pkg.name`).
`join` of `[]` is `''` and `'' || ''` is `''`; the join of the non-empty
singleton is non-empty, so `|| ''` is the identity either way. -/
def providesValue (pkg : Pkg) : Str :=
  joinNl (if pkg.variant = "default".data then []
    else ["linux-upstream=".data ++ pkg.version])

/-- The line array of `#generateDescContent` (joined with `'\n'`). -/
def descLines (pkg : Pkg) : List Str :=
  [ "%FILENAME%".data, pkg.filename,
    "%NAME%".data, pkg.name,
    "%BASE%".data, pkg.name,
    "%VERSION%".data, pkg.version,
    "%DESC%".data, "Liquid Kernel for Arch Linux".data,
    "%GROUPS%".data, "linux-upstream".data,
    "%URL%".data, "https://github.com/liquidprjkt/liquid_kernel_desktop_x86".data,
    "%LICENSE%".data, "GPL2".data,
    "%ARCH%".data, optStr pkg.arch,
    "%PROVIDES%".data, providesValue pkg,
    "%DEPENDS%".data, "linux-firmware".data,
    "%OPTDEPENDS%".data,
    "wireless-regdb: to set the correct wireless channels of your country".data,
    "%CONFLICTS%".data, "linux".data,
    "%REPLACES%".data, "linux".data,
    "%BUILDDATE%".data, encDec (pkg.publishedAt / 1000),
    "%PACKAGER%".data, "Liquid Mirror <hi@zamkara.tech>".data,
    "%SIZE%".data, encDec pkg.size,
    [] ]

/-- The formatter `#generateDescContent`. -/
def generateDescContent (pkg : Pkg) : Str := joinNl (descLines pkg)

/-- JS `pkg.version.replace(/_/g, '.')`: a single-character global replace
is a character-wise map. -/
def kernelVersion (pkg : Pkg) : Str :=
  pkg.version.map (fun c => if c = '_' then '.' else c)

/-- The `files` array of `#generateFilesContent`. -/
def filesLines (pkg : Pkg) : List Str :=
  let kv := kernelVersion pkg
  let base := [
    '.' :: pkg.filename,
    "/usr/lib/modules/".data ++ kv ++ "/vmlinuz".data,
    "/usr/lib/modules/".data ++ kv ++ "/build".data,
    "/usr/lib/modules/".data ++ kv ++ "/kernel".data,
    "/boot/initramfs-".data ++ kv ++ ".img".data,
    "/boot/System.map-".data ++ kv]
  if pkg.variant = "default".data then
    base ++ ["/boot/vmlinuz-".data ++ kv, "/usr/src/linux-".data ++ kv]
  else base

/-- The formatter `#generateFilesContent`: `files.join('\n') + '\n'`. -/
def generateFilesContent (pkg : Pkg) : Str := joinNl (filesLines pkg) ++ ['\n']

/-! ## The HTTP handler (`GET`)

The `try`/`catch` around `generateDatabase()` is embedded as an `Except`
input: `.error msg` is a thrown error with message `msg`, `.ok` carries
the four named artifacts of the resolved `generateDatabase()` object.
The handler computes `isDb` and `isSig` from the request pathname with
`endsWith` and selects body and headers; on a caught error it returns a
plain-text 500 response whose body interpolates the error message. -/

/-- The four artifact blobs of a successful `generateDatabase()`. -/
structure GenResult where
  db : Bytes
  dbSig : Bytes
  files : Bytes
  filesSig : Bytes
deriving DecidableEq

/-- An HTTP `Response`: status (JS default 200), content type, body. -/
structure HttpResponse where
  status : Nat
  contentType : Str
  body : Bytes
deriving DecidableEq

/-- Bytes of a JS string body (ASCII). -/
def strBytes (s : Str) : Bytes := s.map Char.toNat

/-- The `GET` handler.  (`isFiles` is also computed in the source but
never used for selection, which happens on `isDb` alone.) -/
def handleGET (result : Except Str GenResult) (pathname : Str) : HttpResponse :=
  let isDb := strEndsWith pathname ".db".data
  let isSig := strEndsWith pathname ".sig".data
  match result with
  | .error msg =>
    { status := 500, contentType := "text/plain".data,
      body := strBytes ("Error generating repository: ".data ++ msg) }
  | .ok r =>
    if isSig then
      { status := 200, contentType := "application/pgp-signature".data,
        body := if isDb then r.dbSig else r.filesSig }
    else
      { status := 200,
        contentType := if isDb then "application/vnd.pacman.db".data
          else "application/vnd.pacman.files".data,
        body := if isDb then r.db else r.files }

/-! ## Theorems -/

/-! ### Octal round-trip lemmas -/

theorem encOctAux_foldl (acc : Nat) :
    ∀ fuel n, n ≤ fuel →
      (encOctAux fuel n).foldl (fun a b => a * 8 + (b - 48)) acc
        = acc * 8 ^ (encOctAux fuel n).length + n := by
  intro fuel
  induction fuel generalizing acc with
  | zero => intro n hn; interval_cases n; simp [encOctAux]
  | succ fuel ih =>
    intro n hn
    by_cases h0 : n = 0
    · simp [encOctAux, h0]
    · have hdiv : n / 8 ≤ fuel := by
        have : n / 8 < n := Nat.div_lt_self (Nat.pos_of_ne_zero h0) (by omega)
        omega
      simp only [encOctAux, h0, if_false]
      rw [List.foldl_append, ih acc _ hdiv]
      simp only [List.foldl_cons, List.foldl_nil, List.length_append,
        List.length_cons, List.length_nil]
      have hmod : 48 + n % 8 - 48 = n % 8 := by omega
      rw [hmod, pow_succ]
      have := Nat.div_add_mod n 8
      ring_nf
      omega

theorem encOct_foldl (n : Nat) :
    (encOct n).foldl (fun a b => a * 8 + (b - 48)) 0 = n := by
  by_cases h0 : n = 0
  · simp [encOct, h0]
  · simp only [encOct, h0, if_false]
    rw [encOctAux_foldl 0 n n le_rfl]
    simp

theorem encOctAux_mem (fuel n : Nat) :
    ∀ b ∈ encOctAux fuel n, 48 ≤ b ∧ b ≤ 55 := by
  induction fuel generalizing n with
  | zero => simp [encOctAux]
  | succ fuel ih =>
    intro b hb
    by_cases h0 : n = 0
    · simp [encOctAux, h0] at hb
    · simp only [encOctAux, h0, if_false, List.mem_append, List.mem_singleton] at hb
      rcases hb with hb | hb
      · exact ih _ b hb
      · have : n % 8 < 8 := Nat.mod_lt _ (by omega)
        omega

theorem encOct_mem (n : Nat) : ∀ b ∈ encOct n, 48 ≤ b ∧ b ≤ 55 := by
  by_cases h0 : n = 0
  · simp [encOct, h0]
  · simp only [encOct, h0, if_false]
    exact encOctAux_mem n n

theorem encOctAux_length_le (w : Nat) :
    ∀ fuel n, n ≤ fuel → n < 8 ^ w → (encOctAux fuel n).length ≤ w := by
  intro fuel
  induction fuel generalizing w with
  | zero => intro n hn _; interval_cases n; simp [encOctAux]
  | succ fuel ih =>
    intro n hn hw
    by_cases h0 : n = 0
    · simp [encOctAux, h0]
    · have hw1 : 1 ≤ w := by
        by_contra h
        have : w = 0 := by omega
        subst this
        simp at hw
        omega
      have hdiv : n / 8 ≤ fuel := by
        have : n / 8 < n := Nat.div_lt_self (Nat.pos_of_ne_zero h0) (by omega)
        omega
      have hdivpow : n / 8 < 8 ^ (w - 1) := by
        rw [Nat.div_lt_iff_lt_mul (by omega)]
        calc n < 8 ^ w := hw
        _ = 8 ^ (w - 1) * 8 := by
          rw [← pow_succ]
          congr 1
          omega
      simp only [encOctAux, h0, if_false, List.length_append, List.length_cons,
        List.length_nil]
      have := ih (w - 1) _ hdiv hdivpow
      omega

theorem encOct_length_le (n w : Nat) (hw : 1 ≤ w) (h : n < 8 ^ w) :
    (encOct n).length ≤ w := by
  by_cases h0 : n = 0
  · simp [encOct, h0]; omega
  · simp only [encOct, h0, if_false]
    exact encOctAux_length_le w n n le_rfl h

theorem padZeros_length (w : Nat) (l : Bytes) :
    (padZeros w l).length = max w l.length := by
  simp [padZeros]
  omega

theorem padZeros_length_of_le {w : Nat} {l : Bytes} (h : l.length ≤ w) :
    (padZeros w l).length = w := by
  rw [padZeros_length]; omega

theorem padZeros_mem (w : Nat) (l : Bytes) :
    ∀ b ∈ padZeros w l, b = 48 ∨ b ∈ l := by
  intro b hb
  simp only [padZeros, List.mem_append, List.mem_replicate] at hb
  rcases hb with ⟨_, h⟩ | h
  · exact Or.inl h
  · exact Or.inr h

theorem numField_length (n w : Nat) : (numField n w).length = w + 1 := by
  simp only [numField, List.length_take, List.length_append, padZeros_length]
  simp

/-- Parsing a zero-padded octal digit run terminated by a NUL recovers the
number, whatever follows the terminator. -/
theorem parseOct_padZeros (n w : Nat) (rest : Bytes) :
    parseOct (padZeros w (encOct n) ++ 0 :: rest) = n := by
  unfold parseOct
  have hall : ∀ b ∈ padZeros w (encOct n), (b != 0 && b != 32) = true := by
    intro b hb
    rcases padZeros_mem w (encOct n) b hb with h | h
    · subst h; decide
    · have := encOct_mem n b h
      simp only [bne_iff_ne, ne_eq, Bool.and_eq_true, decide_eq_true_eq]
      omega
  rw [List.takeWhile_append_of_pos hall]
  rw [show (0 :: rest).takeWhile (fun b => b != 0 && b != 32) = [] by simp]
  rw [List.append_nil]
  unfold padZeros
  rw [List.foldl_append]
  have hzeros : ∀ k, (List.replicate k 48).foldl (fun a b => a * 8 + (b - 48)) 0 = 0 := by
    intro k
    induction k with
    | zero => simp
    | succ k ih => simpa [List.replicate_succ] using ih
  rw [hzeros]
  exact encOct_foldl n

theorem nameField_length (name : Bytes) : (nameField name).length = 100 := by
  simp only [nameField, List.length_take, List.length_append, List.length_replicate]
  omega

theorem checksumField_length (s : Nat) : (checksumField s).length = 8 := by
  simp only [checksumField, List.length_take, List.length_append, padZeros_length]
  simp

theorem headerA_length (name : Bytes) (size mtime : Nat) :
    (headerA name size mtime).length = 148 := by
  unfold headerA
  simp only [List.length_append, nameField_length, numField_length]
  decide

theorem headerB_length (type : Nat) : (headerB type).length = 356 := by
  unfold headerB
  simp only [List.length_cons, List.length_append, List.length_replicate]
  decide

theorem tarHeaderPre_length (name : Bytes) (size mtime type : Nat) :
    (tarHeaderPre name size mtime type).length = 512 := by
  simp [tarHeaderPre, headerA_length, headerB_length]

theorem tarHeaderPre_take (name : Bytes) (size mtime type : Nat) :
    (tarHeaderPre name size mtime type).take 148 = headerA name size mtime := by
  unfold tarHeaderPre
  rw [List.append_assoc]
  exact List.take_left' (headerA_length name size mtime)

theorem tarHeaderPre_drop (name : Bytes) (size mtime type : Nat) :
    (tarHeaderPre name size mtime type).drop 156 = headerB type := by
  unfold tarHeaderPre
  exact List.drop_left' (by simp [headerA_length])

theorem makeTarHeader_eq (name : Bytes) (size mtime type : Nat) :
    makeTarHeader name size mtime type
      = headerA name size mtime
        ++ checksumField (tarHeaderPre name size mtime type).sum
        ++ headerB type := by
  simp only [makeTarHeader]
  rw [tarHeaderPre_take, tarHeaderPre_drop]

theorem makeTarHeader_length (name : Bytes) (size mtime type : Nat) :
    (makeTarHeader name size mtime type).length = 512 := by
  rw [makeTarHeader_eq]
  simp [headerA_length, headerB_length, checksumField_length]

theorem makeTarHeader_take (name : Bytes) (size mtime type : Nat) :
    (makeTarHeader name size mtime type).take 148 = headerA name size mtime := by
  rw [makeTarHeader_eq, List.append_assoc]
  exact List.take_left' (headerA_length name size mtime)

theorem makeTarHeader_drop (name : Bytes) (size mtime type : Nat) :
    (makeTarHeader name size mtime type).drop 156 = headerB type := by
  rw [makeTarHeader_eq]
  exact List.drop_left' (by simp [headerA_length, checksumField_length])

/-! ### Byte bounds and the checksum sum bound -/

theorem nameField_mem {name : Bytes} (h : ∀ b ∈ name, b ≤ 255) :
    ∀ b ∈ nameField name, b ≤ 255 := by
  intro b hb
  have := List.mem_of_mem_take hb
  simp only [nameField] at this
  rcases List.mem_append.mp (by exact this) with h1 | h1
  · exact h b h1
  · have := List.eq_of_mem_replicate h1
    omega

theorem numField_mem (n w : Nat) : ∀ b ∈ numField n w, b ≤ 255 := by
  intro b hb
  have hmem := List.mem_of_mem_take hb
  rcases List.mem_append.mp hmem with h1 | h1
  · rcases padZeros_mem _ _ b h1 with h | h
    · omega
    · have := encOct_mem n b h
      omega
  · simp only [List.mem_singleton] at h1
    omega

theorem tarHeaderPre_mem {name : Bytes} (size mtime : Nat) {type : Nat}
    (hname : ∀ b ∈ name, b ≤ 255) (htype : type ≤ 255) :
    ∀ b ∈ tarHeaderPre name size mtime type, b ≤ 255 := by
  intro b hb
  simp only [tarHeaderPre, headerA, headerB, List.append_assoc, List.mem_append,
    List.mem_cons, List.mem_replicate] at hb
  rcases hb with h | h | h | h | h | h | h | h | h | h | h | h
  · exact nameField_mem hname b h
  · simp only [modeField, List.mem_cons, List.not_mem_nil, or_false] at h
    rcases h with h | h | h | h | h | h | h | h <;> omega
  · simp only [uidField, List.mem_cons, List.not_mem_nil, or_false] at h
    rcases h with h | h | h | h | h | h | h | h <;> omega
  · simp only [gidField, List.mem_cons, List.not_mem_nil, or_false] at h
    rcases h with h | h | h | h | h | h | h | h <;> omega
  · exact numField_mem size 11 b h
  · exact numField_mem mtime 11 b h
  · omega
  · omega
  · omega
  · simp only [List.mem_cons, List.not_mem_nil, or_false] at h
    rcases h with h | h | h | h | h | h <;> omega
  · simp only [List.mem_cons, List.not_mem_nil, or_false] at h
    rcases h with h | h <;> omega
  · omega

theorem tarHeaderPre_sum_le {name : Bytes} (size mtime : Nat) {type : Nat}
    (hname : ∀ b ∈ name, b ≤ 255) (htype : type ≤ 255) :
    (tarHeaderPre name size mtime type).sum ≤ 130560 := by
  have hb := tarHeaderPre_mem size mtime hname htype
  have := List.sum_le_card_nsmul (tarHeaderPre name size mtime type) 255 hb
  rw [tarHeaderPre_length] at this
  simpa using this

/-- The checksum fits six octal digits, so the rendered field is exactly
six digits, a NUL and a space — the `slice` to 8 bytes cuts nothing. -/
theorem checksumField_eq_of_lt {s : Nat} (hs : s < 262144) :
    checksumField s = padZeros 6 (encOct s) ++ [0, 32] := by
  have hlen : (encOct s).length ≤ 6 := encOct_length_le s 6 (by omega) (by norm_num; omega)
  apply List.take_of_length_le
  simp [padZeros_length_of_le hlen]

/-! ### Reading back the header fields -/

theorem makeTarHeader_split_name (name : Bytes) (size mtime type : Nat) :
    makeTarHeader name size mtime type
      = nameField name
        ++ (modeField ++ uidField ++ gidField ++ numField size 11
            ++ numField mtime 11
            ++ checksumField (tarHeaderPre name size mtime type).sum
            ++ headerB type) := by
  rw [makeTarHeader_eq]
  unfold headerA
  simp [List.append_assoc]

theorem makeTarHeader_split_size (name : Bytes) (size mtime type : Nat) :
    makeTarHeader name size mtime type
      = (nameField name ++ modeField ++ uidField ++ gidField)
        ++ (numField size 11
            ++ (numField mtime 11
                ++ (checksumField (tarHeaderPre name size mtime type).sum
                    ++ headerB type))) := by
  rw [makeTarHeader_eq]
  unfold headerA
  simp [List.append_assoc]

theorem makeTarHeader_take_100 (name : Bytes) (size mtime type : Nat) :
    (makeTarHeader name size mtime type).take 100 = nameField name := by
  rw [makeTarHeader_split_name]
  exact List.take_left' (nameField_length name)

theorem makeTarHeader_sizeField (name : Bytes) (size mtime type : Nat) :
    ((makeTarHeader name size mtime type).drop 124).take 12 = numField size 11 := by
  rw [makeTarHeader_split_size]
  rw [List.drop_left' (by simp [nameField_length, modeField, uidField, gidField])]
  exact List.take_left' (numField_length size 11)

theorem numField_parse {n : Nat} (h : n < 8 ^ 11) : parseOct (numField n 11) = n := by
  have hlen : (encOct n).length ≤ 11 := encOct_length_le n 11 (by omega) h
  have : numField n 11 = padZeros 11 (encOct n) ++ 0 :: [] := by
    unfold numField
    apply List.take_of_length_le
    simp [padZeros_length_of_le hlen]
  rw [this]
  exact parseOct_padZeros n 11 []

theorem nameField_takeWhile {name : Bytes} (hlen : name.length ≤ 100)
    (hnz : ∀ b ∈ name, b ≠ 0) :
    (nameField name).takeWhile (fun b => b != 0) = name := by
  unfold nameField
  rw [List.take_of_length_le (by simp; omega)]
  rw [List.takeWhile_append_of_pos (by
    intro b hb
    simpa using hnz b hb)]
  rw [List.takeWhile_replicate]
  simp

theorem makeTarHeader_not_zero (name : Bytes) (size mtime type : Nat) :
    (makeTarHeader name size mtime type).all (fun b => b == 0) = false := by
  have hmem : 48 ∈ makeTarHeader name size mtime type := by
    rw [makeTarHeader_split_name]
    apply List.mem_append_right
    apply List.mem_append_left
    apply List.mem_append_left
    apply List.mem_append_left
    apply List.mem_append_left
    apply List.mem_append_left
    simp [modeField]
  rcases h : (makeTarHeader name size mtime type).all (fun b => b == 0) with _ | _
  · rfl
  · exfalso
    have := List.all_eq_true.mp h 48 hmem
    simp at this

/-! ### Round-trip of the container -/

theorem buildEntry_length (mtime : Nat) (e : TarEntry) :
    (buildEntry mtime e).length
      = 512 + e.content.length + padLen e.content.length := by
  simp [buildEntry, makeTarHeader_length]
  omega

theorem readTarAux_end (fuel : Nat) :
    readTarAux (fuel + 1) (List.replicate 1024 0) = some [] := by
  simp only [readTarAux, List.length_replicate]
  rw [if_neg (by omega)]
  rw [List.take_replicate, show min 512 1024 = 512 by omega]
  rw [if_pos (List.all_eq_true.mpr (by
    intro x hx
    rw [List.eq_of_mem_replicate hx]
    rfl))]

theorem readTarAux_step (mtime fuel : Nat) (e : TarEntry) (tail : Bytes)
    (hlen : e.name.length ≤ 100) (hnz : ∀ b ∈ e.name, b ≠ 0)
    (hsize : e.content.length < 8 ^ 11) :
    readTarAux (fuel + 1) (buildEntry mtime e ++ tail)
      = match readTarAux fuel tail with
        | some es => some (e :: es)
        | none => none := by
  have hdata : buildEntry mtime e ++ tail
      = makeTarHeader e.name e.content.length mtime 48
        ++ (e.content ++ (List.replicate (padLen e.content.length) 0 ++ tail)) := by
    unfold buildEntry
    simp [List.append_assoc]
  rw [hdata]
  simp only [readTarAux]
  rw [if_neg (by
    simp only [List.length_append, makeTarHeader_length]
    omega)]
  rw [List.take_left' (makeTarHeader_length _ _ _ _)]
  rw [if_neg (by rw [makeTarHeader_not_zero]; simp)]
  rw [List.drop_left' (makeTarHeader_length _ _ _ _)]
  rw [show ((makeTarHeader e.name e.content.length mtime 48).take 100).takeWhile
        (fun b => b != 0) = e.name by
    rw [makeTarHeader_take_100]
    exact nameField_takeWhile hlen hnz]
  rw [makeTarHeader_sizeField, numField_parse hsize]
  rw [if_neg (by simp)]
  rw [List.take_left' rfl]
  rw [show e.content ++ (List.replicate (padLen e.content.length) 0 ++ tail)
        = (e.content ++ List.replicate (padLen e.content.length) 0) ++ tail by
    simp [List.append_assoc]]
  rw [List.drop_left' (by simp)]

theorem length_le_build (mtime : Nat) (files : List TarEntry) :
    files.length ≤ ((files.map (buildEntry mtime)).flatten).length := by
  induction files with
  | nil => simp
  | cons e es ih =>
    simp only [List.map_cons, List.flatten_cons, List.length_append, List.length_cons]
    have := buildEntry_length mtime e
    omega

theorem readTarAux_build (mtime : Nat) (files : List TarEntry)
    (h : ∀ e ∈ files, e.name.length ≤ 100 ∧ (∀ b ∈ e.name, b ≠ 0)
        ∧ e.content.length < 8 ^ 11) :
    ∀ fuel, files.length < fuel →
      readTarAux fuel ((files.map (buildEntry mtime)).flatten
          ++ List.replicate 1024 0) = some files := by
  induction files with
  | nil =>
    intro fuel hfuel
    match fuel, hfuel with
    | fuel + 1, _ =>
      simp only [List.map_nil, List.flatten_nil, List.nil_append]
      exact readTarAux_end fuel
  | cons e es ih =>
    intro fuel hfuel
    match fuel, hfuel with
    | fuel + 1, hfuel =>
      simp only [List.map_cons, List.flatten_cons, List.append_assoc]
      have he := h e (by simp)
      rw [readTarAux_step mtime fuel e _ he.1 he.2.1 he.2.2]
      rw [ih (fun x hx => h x (by simp [hx])) fuel (by simpa using hfuel)]

/-- Round-trip: a conformant reader recovers exactly the input entries. -/
theorem readTar_build (mtime : Nat) (files : List TarEntry)
    (h : ∀ e ∈ files, e.name.length ≤ 100 ∧ (∀ b ∈ e.name, b ≠ 0)
        ∧ e.content.length < 8 ^ 11) :
    readTar (buildTarArchive mtime files) = some files := by
  unfold readTar buildTarArchive
  apply readTarAux_build mtime files h
  have := length_le_build mtime files
  simp only [List.length_append, List.length_replicate]
  omega

/-! ### Bytes of the finished header -/

theorem checksumField_mem (s : Nat) : ∀ b ∈ checksumField s, b ≤ 255 := by
  intro b hb
  have hmem := List.mem_of_mem_take hb
  rcases List.mem_append.mp hmem with h1 | h1
  · rcases padZeros_mem _ _ b h1 with h | h
    · omega
    · have := encOct_mem s b h
      omega
  · simp only [List.mem_cons, List.not_mem_nil, or_false] at h1
    rcases h1 with h | h <;> omega

theorem makeTarHeader_mem {name : Bytes} (size mtime : Nat) {type : Nat}
    (hname : ∀ b ∈ name, b ≤ 255) (htype : type ≤ 255) :
    ∀ b ∈ makeTarHeader name size mtime type, b ≤ 255 := by
  intro b hb
  rw [makeTarHeader_eq] at hb
  rcases List.mem_append.mp hb with h | h
  · rcases List.mem_append.mp h with h1 | h1
    · exact tarHeaderPre_mem size mtime hname htype b
        (by unfold tarHeaderPre; exact List.mem_append_left _ (List.mem_append_left _ h1))
    · exact checksumField_mem _ b h1
  · exact tarHeaderPre_mem size mtime hname htype b
      (by unfold tarHeaderPre; exact List.mem_append_right _ h)

theorem makeTarHeader_sum_le {name : Bytes} (size mtime : Nat) {type : Nat}
    (hname : ∀ b ∈ name, b ≤ 255) (htype : type ≤ 255) :
    (makeTarHeader name size mtime type).sum ≤ 130560 := by
  have hb := makeTarHeader_mem size mtime hname htype
  have := List.sum_le_card_nsmul (makeTarHeader name size mtime type) 255 hb
  rw [makeTarHeader_length] at this
  simpa using this

/-- Restoring spaces into the checksum slot of a finished header gives back
the pre-checksum header the builder summed. -/
theorem makeTarHeader_respace (name : Bytes) (size mtime type : Nat) :
    (makeTarHeader name size mtime type).take 148
      ++ List.replicate 8 32
      ++ (makeTarHeader name size mtime type).drop 156
    = tarHeaderPre name size mtime type := by
  rw [makeTarHeader_take, makeTarHeader_drop]
  rfl

/-- The checksum field of a finished header. -/
theorem makeTarHeader_cksumField (name : Bytes) (size mtime type : Nat) :
    ((makeTarHeader name size mtime type).drop 148).take 8
      = checksumField (tarHeaderPre name size mtime type).sum := by
  rw [makeTarHeader_eq, List.append_assoc]
  rw [List.drop_left' (headerA_length name size mtime)]
  exact List.take_left' (checksumField_length _)

/-- C2: the 512-byte header emitted by the container builder satisfies
the tar checksum contract: with the 8-byte field at offset 148 reset to
ASCII spaces, the unsigned sum of all 512 header bytes equals the value
stored in that field, and the field is written as a 6-digit zero-padded
octal number followed by a NUL and a trailing space. -/
theorem tar_checksum_contract (name : Bytes) (size mtime type : Nat)
    (hname : ∀ b ∈ name, b ≤ 255) (htype : type ≤ 255) :
    ∃ s,
      ((makeTarHeader name size mtime type).take 148
          ++ List.replicate 8 32
          ++ (makeTarHeader name size mtime type).drop 156).sum = s
      ∧ ((makeTarHeader name size mtime type).drop 148).take 8
          = padZeros 6 (encOct s) ++ [0, 32]
      ∧ (padZeros 6 (encOct s)).length = 6
      ∧ parseOct (((makeTarHeader name size mtime type).drop 148).take 8) = s := by
  refine ⟨(tarHeaderPre name size mtime type).sum, ?_, ?_, ?_, ?_⟩
  · rw [makeTarHeader_respace]
  · rw [makeTarHeader_cksumField]
    exact checksumField_eq_of_lt
      (by have := tarHeaderPre_sum_le size mtime hname htype; omega)
  · exact padZeros_length_of_le (encOct_length_le _ 6 (by omega)
      (by have := tarHeaderPre_sum_le size mtime hname htype; norm_num; omega))
  · rw [makeTarHeader_cksumField]
    rw [checksumField_eq_of_lt
      (by have := tarHeaderPre_sum_le size mtime hname htype; omega)]
    exact parseOct_padZeros _ 6 [32]

/-- Witness for `tar_checksum_contract` at a concrete header. -/
theorem tar_checksum_contract_witness :
    ∃ s,
      ((makeTarHeader [104, 105] 3 123 48).take 148
          ++ List.replicate 8 32
          ++ (makeTarHeader [104, 105] 3 123 48).drop 156).sum = s
      ∧ ((makeTarHeader [104, 105] 3 123 48).drop 148).take 8
          = padZeros 6 (encOct s) ++ [0, 32]
      ∧ (padZeros 6 (encOct s)).length = 6
      ∧ parseOct (((makeTarHeader [104, 105] 3 123 48).drop 148).take 8) = s :=
  tar_checksum_contract [104, 105] 3 123 48 (by decide) (by decide)

/-- C10: the space-filled header the builder sums has byte sum at most
512 × 255 = 130560 < 8^6, so the rendered checksum never exceeds six octal
digits and the 8-byte field (six digits, NUL, space) is written in full,
without truncation; the finished header's own byte sum obeys the same
bound. -/
theorem tar_checksum_no_overflow (name : Bytes) (size mtime type : Nat)
    (hname : ∀ b ∈ name, b ≤ 255) (htype : type ≤ 255) :
    (tarHeaderPre name size mtime type).sum ≤ 130560
    ∧ (makeTarHeader name size mtime type).sum ≤ 130560
    ∧ (encOct (tarHeaderPre name size mtime type).sum).length ≤ 6
    ∧ checksumField (tarHeaderPre name size mtime type).sum
        = padZeros 6 (encOct (tarHeaderPre name size mtime type).sum) ++ [0, 32]
    ∧ (checksumField (tarHeaderPre name size mtime type).sum).length = 8 := by
  have hsum := tarHeaderPre_sum_le size mtime hname htype
  refine ⟨hsum, makeTarHeader_sum_le size mtime hname htype, ?_, ?_, ?_⟩
  · exact encOct_length_le _ 6 (by omega) (by norm_num; omega)
  · exact checksumField_eq_of_lt (by omega)
  · exact checksumField_length _

/-- Witness for `tar_checksum_no_overflow` at a concrete header. -/
theorem tar_checksum_no_overflow_witness :
    (tarHeaderPre [104, 105] 3 123 48).sum ≤ 130560
    ∧ (makeTarHeader [104, 105] 3 123 48).sum ≤ 130560
    ∧ (encOct (tarHeaderPre [104, 105] 3 123 48).sum).length ≤ 6
    ∧ checksumField (tarHeaderPre [104, 105] 3 123 48).sum
        = padZeros 6 (encOct (tarHeaderPre [104, 105] 3 123 48).sum) ++ [0, 32]
    ∧ (checksumField (tarHeaderPre [104, 105] 3 123 48).sum).length = 8 :=
  tar_checksum_no_overflow [104, 105] 3 123 48 (by decide) (by decide)

/-- C3 (amended): round-trip — for entries whose names are at most
100 bytes and contain no NUL byte, and whose content is shorter than the
8^11-byte capacity of the 11-digit octal size field, unpacking the byte
stream produced by the container builder with a conformant reader yields
exactly the input entries, in input order. -/
theorem tar_roundtrip (mtime : Nat) (files : List TarEntry)
    (h : ∀ e ∈ files, e.name.length ≤ 100 ∧ (∀ b ∈ e.name, b ≠ 0)
        ∧ e.content.length < 8 ^ 11) :
    readTar (buildTarArchive mtime files) = some files :=
  readTar_build mtime files h

/-- Witness for `tar_roundtrip` on a concrete two-entry archive. -/
theorem tar_roundtrip_witness :
    readTar (buildTarArchive 7 [⟨[100, 101], [9, 8, 7]⟩, ⟨[102], []⟩])
      = some [⟨[100, 101], [9, 8, 7]⟩, ⟨[102], []⟩] :=
  tar_roundtrip 7 [⟨[100, 101], [9, 8, 7]⟩, ⟨[102], []⟩] (by decide)

set_option maxRecDepth 100000 in
/-- C3 counterexample to the claim as stated: a 1-byte name consisting
of the NUL byte is within "at most 100 bytes", but a conformant reader
reads the name back as empty, so the round-trip fails. -/
theorem tar_roundtrip_nul_name_cex :
    readTar (buildTarArchive 0 [⟨[0], []⟩]) ≠ some [⟨[0], []⟩] := by
  decide

/-- Per-entry padding: content plus padding is a multiple of 512. -/
theorem padLen_add (n : Nat) : (n + padLen n) % 512 = 0 := by
  unfold padLen
  omega

theorem flatten_build_mod (mtime : Nat) (files : List TarEntry) :
    ((files.map (buildEntry mtime)).flatten).length % 512 = 0 := by
  induction files with
  | nil => simp
  | cons e es ih =>
    simp only [List.map_cons, List.flatten_cons, List.length_append]
    rw [buildEntry_length]
    unfold padLen at *
    omega

/-- C4: each entry's header+content+padding block is a multiple of 512
bytes (with no padding when the content length is already a multiple of
512), exactly 1024 zero bytes follow the final entry, and the total output
length is always a multiple of 512. -/
theorem tar_blocking (mtime : Nat) (files : List TarEntry) :
    (∀ e ∈ files,
      (buildEntry mtime e).length % 512 = 0
      ∧ (e.content.length % 512 = 0 →
          (buildEntry mtime e).length = 512 + e.content.length))
    ∧ (buildTarArchive mtime files).drop
        ((files.map (buildEntry mtime)).flatten).length = List.replicate 1024 0
    ∧ (buildTarArchive mtime files).length % 512 = 0 := by
  refine ⟨?_, ?_, ?_⟩
  · intro e _
    constructor
    · rw [buildEntry_length]
      unfold padLen
      omega
    · intro hc
      rw [buildEntry_length]
      unfold padLen
      omega
  · unfold buildTarArchive
    exact List.drop_left' rfl
  · unfold buildTarArchive
    have := flatten_build_mod mtime files
    simp only [List.length_append, List.length_replicate]
    omega

/-- Witness for `tar_blocking` at concrete entries (one with content
length 3, one with content length 0, a multiple of 512). -/
theorem tar_blocking_witness :
    (buildEntry 0 ⟨[97], [1, 2, 3]⟩).length % 512 = 0
    ∧ (buildEntry 0 ⟨[98], []⟩).length = 512
    ∧ (buildTarArchive 0 [⟨[97], [1, 2, 3]⟩, ⟨[98], []⟩]).length % 512 = 0 := by
  refine ⟨((tar_blocking 0 [⟨[97], [1, 2, 3]⟩, ⟨[98], []⟩]).1 _ (by decide)).1, ?_,
    (tar_blocking 0 [⟨[97], [1, 2, 3]⟩, ⟨[98], []⟩]).2.2⟩
  have := ((tar_blocking 0 [⟨[97], [1, 2, 3]⟩, ⟨[98], []⟩]).1 ⟨[98], []⟩
    (by decide)).2 (by decide)
  simpa using this

set_option maxRecDepth 100000 in
/-- C1: evaluating `#parsePackageInfo` at the spec's variant-less
example asset.  Pattern 1 has only two capture groups, so the
destructuring `[_, variant, version, arch] = match` binds `variant` to the
version token and `version` to the architecture token, leaving `arch`
`undefined`; the produced record is *not* the
`{baseName := "linux-upstream", variant := "default", ...}` the spec
describes. -/
theorem parse_default_pattern_eval :
    parsePackageInfo
      ⟨"linux-upstream-6.6.1_liquid-2-x86_64.pkg.tar.zst".data, 7, "u".data⟩
      ⟨false, 1704067200000, "v1".data, []⟩
      = some
        { name := "linux-upstream-6.6.1_liquid-2".data
          variant := "6.6.1_liquid-2".data
          version := "x86_64".data
          arch := none
          filename := "linux-upstream-6.6.1_liquid-2-x86_64.pkg.tar.zst".data
          size := 7
          downloadUrl := "u".data
          publishedAt := 1704067200000
          releaseTag := "v1".data } := by
  decide

theorem pkgLe_trans (a b c : Pkg) :
    pkgLe a b → pkgLe b c → pkgLe a c := by
  simp only [pkgLe, decide_eq_true_eq]
  omega

theorem pkgLe_total (a b : Pkg) : pkgLe a b || pkgLe b a := by
  simp only [pkgLe, Bool.or_eq_true, decide_eq_true_eq]
  omega

/-- Sorting a two-element list. -/
theorem mergeSort_pair {α : Type} (le : α → α → Bool) (a b : α) :
    [a, b].mergeSort le = if le a b then [a, b] else [b, a] := by
  rw [List.mergeSort]
  simp only [List.splitInTwo, List.splitAt_eq]
  norm_num
  rcases h : le a b with _ | _ <;> simp [List.merge, h]

/-- Stability of the sort, as preservation of each equal-`publishedAt`
fibre. -/
theorem mergeSort_pkg_stable (l : List Pkg) (k : Nat) :
    (l.mergeSort pkgLe).filter (fun p => p.publishedAt == k)
      = l.filter (fun p => p.publishedAt == k) := by
  set p : Pkg → Bool := fun x => x.publishedAt == k with hp
  have hmemk : ∀ x ∈ l.filter p, x.publishedAt = k := by
    intro x hx
    have := List.of_mem_filter hx
    simpa [hp] using this
  have hpair : (l.filter p).Pairwise (fun a b => pkgLe a b = true) := by
    apply List.pairwise_of_forall_mem_list
    intro a ha b hb
    simp only [pkgLe, decide_eq_true_eq]
    rw [hmemk a ha, hmemk b hb]
  have hsub : List.Sublist (l.filter p) (l.mergeSort pkgLe) :=
    List.sublist_mergeSort (by exact fun a b c => pkgLe_trans a b c)
      (by exact fun a b => pkgLe_total a b) hpair (List.filter_sublist l)
  have hsubf : List.Sublist ((l.filter p).filter p) ((l.mergeSort pkgLe).filter p) :=
    hsub.filter p
  rw [List.filter_eq_self.mpr
    (show ∀ a ∈ l.filter p, p a from fun a ha => List.of_mem_filter ha)] at hsubf
  have hperm : List.Perm ((l.mergeSort pkgLe).filter p) (l.filter p) :=
    (List.mergeSort_perm l pkgLe).filter p
  exact (hsubf.eq_of_length hperm.length_eq.symm).symm

set_option maxRecDepth 100000 in
/-- C5: the generator sorts all classified records across all releases
by `publishedAt` descending and truncates to at most `maxPackages = 3`;
equal `publishedAt` fibres keep their original relative order (stability);
and for two releases dated 2024-01-01 and 2024-02-01 with one matching
asset each, the February record comes first. -/
theorem classifier_sort_truncate :
    (∀ releases : List Release,
      List.Pairwise (fun a b : Pkg => b.publishedAt ≤ a.publishedAt)
        (latestPackages releases))
    ∧ (∀ releases : List Release,
      (latestPackages releases).length
        = min maxPackages (collectPackages releases).length)
    ∧ (∀ (releases : List Release) (k : Nat),
      ((collectPackages releases).mergeSort pkgLe).filter
          (fun p => p.publishedAt == k)
        = (collectPackages releases).filter (fun p => p.publishedAt == k))
    ∧ (latestPackages [relJan, relFeb]).head? = some pkgFeb := by
  refine ⟨?_, ?_, ?_, ?_⟩
  · intro rs
    have hs := @List.sorted_mergeSort Pkg pkgLe
      (fun a b c => pkgLe_trans a b c)
      (fun a b => pkgLe_total a b) (collectPackages rs)
    have hp : List.Pairwise (fun a b : Pkg => b.publishedAt ≤ a.publishedAt)
        ((collectPackages rs).mergeSort pkgLe) := by
      refine hs.imp ?_
      intro a b h
      simpa [pkgLe] using h
    exact hp.sublist (List.take_sublist _ _)
  · intro rs
    simp [latestPackages, List.length_take, List.length_mergeSort]
  · intro rs k
    exact mergeSort_pkg_stable _ k
  · have hcollect : collectPackages [relJan, relFeb] = [pkgJan, pkgFeb] := by
      decide
    unfold latestPackages
    rw [hcollect, mergeSort_pair]
    rw [show pkgLe pkgJan pkgFeb = false by decide]
    simp [maxPackages]

/-- C6 counterexample: for the zen example record the PROVIDES value
is the fixed `"linux-upstream=<version>"`, not
`"<baseName>=<version>"` built from the record's own (variant-suffixed)
`name` as the claim states. -/
theorem provides_value_cex :
    (descLines pkgFeb)[19]? = some ("linux-upstream=6.6.1_liquid-2".data)
    ∧ pkgFeb.name ++ "=".data ++ pkgFeb.version
        = "linux-upstream-zen=6.6.1_liquid-2".data
    ∧ (descLines pkgFeb)[19]? ≠ some (pkgFeb.name ++ "=".data ++ pkgFeb.version) := by
  decide

/-- C6 (amended): `#generateDescContent` emits an empty PROVIDES
value when `variant = "default"`, and otherwise exactly
`"linux-upstream=<version>"` — the fixed base name without the variant
suffix, followed by `=` and the record's version. -/
theorem provides_value (pkg : Pkg) :
    (descLines pkg)[18]? = some ("%PROVIDES%".data)
    ∧ (descLines pkg)[19]?
        = some (if pkg.variant = "default".data then []
            else "linux-upstream=".data ++ pkg.version) := by
  refine ⟨rfl, ?_⟩
  by_cases h : pkg.variant = "default".data <;>
    simp [descLines, providesValue, joinNl, h]

/-! ### Trailing-newline structure of the file list -/

theorem joinNl_append_singleton_ne_nil (xs : List Str) (l : Str) (h : l ≠ []) :
    joinNl (xs ++ [l]) ≠ [] := by
  induction xs with
  | nil => simpa [joinNl] using h
  | cons x xs ih =>
    cases xs with
    | nil => simp [joinNl]
    | cons y ys => simp [joinNl]

theorem getLast?_joinNl (xs : List Str) (l : Str) (h : l ≠ []) :
    (joinNl (xs ++ [l])).getLast? = l.getLast? := by
  induction xs with
  | nil => simp [joinNl]
  | cons x xs ih =>
    have hstep : joinNl (x :: (xs ++ [l])) = x ++ '\n' :: joinNl (xs ++ [l]) := by
      cases xs with
      | nil => simp [joinNl]
      | cons y ys => simp [joinNl]
    rw [List.cons_append, hstep]
    rw [List.getLast?_append]
    have hne := joinNl_append_singleton_ne_nil xs l h
    rw [show ('\n' :: joinNl (xs ++ [l])).getLast?
        = (joinNl (xs ++ [l])).getLast? by
      rw [show ('\n' :: joinNl (xs ++ [l])) = ['\n'] ++ joinNl (xs ++ [l]) by rfl]
      rw [List.getLast?_append]
      cases hj : (joinNl (xs ++ [l])).getLast? with
      | none => exact absurd (List.getLast?_eq_none_iff.mp hj) hne
      | some a => rfl]
    rw [ih]
    cases hl : l.getLast? with
    | none => exact absurd (List.getLast?_eq_none_iff.mp hl) h
    | some a => rfl

theorem kernelVersion_no_newline {pkg : Pkg} (h : '\n' ∉ pkg.version) :
    ∀ c ∈ kernelVersion pkg, c ≠ '\n' := by
  intro c hc
  rcases List.mem_map.mp hc with ⟨d, hd, rfl⟩
  by_cases hu : d = '_'
  · simp [hu]
  · simp only [hu, if_false]
    intro hdn
    exact h (hdn ▸ hd)

theorem getLast?_append_no_newline (pre kv : Str)
    (hpre : pre.getLast? ≠ some '\n') (hkv : ∀ c ∈ kv, c ≠ '\n') :
    (pre ++ kv).getLast? ≠ some '\n' := by
  rw [List.getLast?_append]
  cases hk : kv.getLast? with
  | none => simpa using hpre
  | some c =>
    have hc : c ∈ kv := List.mem_of_getLast?_eq_some hk
    simpa using hkv c hc

/-- C7: `#generateFilesContent` starts with `.` + filename, its second
line is `/usr/lib/modules/<version with '_' → '.'>/vmlinuz`, it has two
extra top-level paths exactly when `variant = "default"` (8 lines instead
of 6), the blob ends with exactly one trailing newline, and for the zen
example record with version `6.6.1_liquid-2` the second line is
`/usr/lib/modules/6.6.1.liquid-2/vmlinuz`. -/
theorem fileList_structure (pkg : Pkg) (hv : '\n' ∉ pkg.version) :
    (filesLines pkg).head? = some ('.' :: pkg.filename)
    ∧ (filesLines pkg)[1]?
        = some ("/usr/lib/modules/".data ++ kernelVersion pkg ++ "/vmlinuz".data)
    ∧ (filesLines pkg).length = (if pkg.variant = "default".data then 8 else 6)
    ∧ (generateFilesContent pkg).reverse.head? = some '\n'
    ∧ (generateFilesContent pkg).reverse.tail.head? ≠ some '\n'
    ∧ (filesLines pkgFeb)[1]?
        = some ("/usr/lib/modules/6.6.1.liquid-2/vmlinuz".data) := by
  have hlast : (joinNl (filesLines pkg)).getLast? ≠ some '\n' := by
    by_cases h : pkg.variant = "default".data
    · rw [show filesLines pkg
          = (['.' :: pkg.filename,
              "/usr/lib/modules/".data ++ kernelVersion pkg ++ "/vmlinuz".data,
              "/usr/lib/modules/".data ++ kernelVersion pkg ++ "/build".data,
              "/usr/lib/modules/".data ++ kernelVersion pkg ++ "/kernel".data,
              "/boot/initramfs-".data ++ kernelVersion pkg ++ ".img".data,
              "/boot/System.map-".data ++ kernelVersion pkg,
              "/boot/vmlinuz-".data ++ kernelVersion pkg]
            ++ ["/usr/src/linux-".data ++ kernelVersion pkg]) from by
        simp [filesLines, h]]
      rw [getLast?_joinNl _ _ (by simp)]
      exact getLast?_append_no_newline _ _ (by decide)
        (kernelVersion_no_newline hv)
    · rw [show filesLines pkg
          = (['.' :: pkg.filename,
              "/usr/lib/modules/".data ++ kernelVersion pkg ++ "/vmlinuz".data,
              "/usr/lib/modules/".data ++ kernelVersion pkg ++ "/build".data,
              "/usr/lib/modules/".data ++ kernelVersion pkg ++ "/kernel".data,
              "/boot/initramfs-".data ++ kernelVersion pkg ++ ".img".data]
            ++ ["/boot/System.map-".data ++ kernelVersion pkg]) from by
        simp [filesLines, h]]
      rw [getLast?_joinNl _ _ (by simp)]
      exact getLast?_append_no_newline _ _ (by decide)
        (kernelVersion_no_newline hv)
  refine ⟨?_, ?_, ?_, ?_, ?_, by decide⟩
  · by_cases h : pkg.variant = "default".data <;> simp [filesLines, h]
  · by_cases h : pkg.variant = "default".data <;> simp [filesLines, h]
  · by_cases h : pkg.variant = "default".data <;> simp [filesLines, h]
  · unfold generateFilesContent
    simp
  · unfold generateFilesContent
    rw [List.reverse_append]
    simpa using hlast

/-- Witness for `fileList_structure` at the zen example record. -/
theorem fileList_structure_witness :
    (filesLines pkgFeb).head? = some ('.' :: pkgFeb.filename)
    ∧ (filesLines pkgFeb)[1]?
        = some ("/usr/lib/modules/".data ++ kernelVersion pkgFeb ++ "/vmlinuz".data)
    ∧ (filesLines pkgFeb).length = (if pkgFeb.variant = "default".data then 8 else 6)
    ∧ (generateFilesContent pkgFeb).reverse.head? = some '\n'
    ∧ (generateFilesContent pkgFeb).reverse.tail.head? ≠ some '\n'
    ∧ (filesLines pkgFeb)[1]?
        = some ("/usr/lib/modules/6.6.1.liquid-2/vmlinuz".data) :=
  fileList_structure pkgFeb (by decide)

/-- C8 counterexample: the error body starts with
`"Error generating repository: "`, not with the `"# Error:"` prefix the
claim states. -/
theorem error_prefix_cex :
    (handleGET (.error "GitHub API error: 500 - ".data)
        "/db/archlinux/liquid.db".data).body.take 8
      ≠ strBytes "# Error:".data := by
  decide

/-- C8 (amended): when generation fails, the handler returns a
plain-text body prefixed `"Error generating repository: "` with HTTP
status 500, and the body is exactly that one error line — no partial
archive is served. -/
theorem error_response (msg path : Str) :
    (handleGET (.error msg) path).status = 500
    ∧ 500 ≥ 500 ∧ 500 < 600
    ∧ (handleGET (.error msg) path).contentType = "text/plain".data
    ∧ (handleGET (.error msg) path).body.take 29
        = strBytes "Error generating repository: ".data
    ∧ (handleGET (.error msg) path).body
        = strBytes ("Error generating repository: ".data ++ msg) := by
  refine ⟨rfl, by omega, by omega, rfl, ?_, rfl⟩
  show (strBytes ("Error generating repository: ".data ++ msg)).take 29
      = strBytes "Error generating repository: ".data
  unfold strBytes
  rw [List.map_append]
  exact List.take_left' (by simp)

/-- A path ending in `".sig"` does not end in `".db"`. -/
theorem endsWith_sig_not_db {path : Str}
    (h : strEndsWith path ".sig".data = true) :
    strEndsWith path ".db".data = false := by
  have h4 : path.reverse.take 4 = ".sig".data.reverse := by
    simpa [strEndsWith] using h
  have h3 : path.reverse.take 3 = ['g', 'i', 's'] := by
    have : path.reverse.take 3 = (path.reverse.take 4).take 3 := by
      rw [List.take_take]
      norm_num
    rw [this, h4]
    rfl
  simp [strEndsWith, h3]

/-- C9: for every request path ending in `".sig"` — including the db
signature path `"liquid.db.sig"` — the handler serves the files-container
signature blob (`filesSig`), because `endsWith('.db')` is false for any
path ending in `".db.sig"`. -/
theorem sig_request_serves_filesSig (r : GenResult) (path : Str)
    (h : strEndsWith path ".sig".data = true) :
    (handleGET (.ok r) path).body = r.filesSig
    ∧ (handleGET (.ok r) path).contentType
        = "application/pgp-signature".data := by
  have hdb := endsWith_sig_not_db h
  unfold handleGET
  simp [h, hdb]

/-- Witness for `sig_request_serves_filesSig` at the db signature path. -/
theorem sig_request_serves_filesSig_witness :
    (handleGET (.ok ⟨[1], [2], [3], [4]⟩) "liquid.db.sig".data).body = [4]
    ∧ (handleGET (.ok ⟨[1], [2], [3], [4]⟩) "liquid.db.sig".data).contentType
        = "application/pgp-signature".data :=
  sig_request_serves_filesSig ⟨[1], [2], [3], [4]⟩ "liquid.db.sig".data (by decide)

end LiquidMirror
